import Mathlib

/-!
Shallow embedding of `src/src/motion/position.ts`, the motion core of the
repository: the `Position` class with its two caret-validity modes, the
word/big-word boundary classifier compiled by `makeWordRegex`, and the
word, paragraph and vertical motion algorithms.

The `TextEditor` buffer adapter that the source imports is code of the
repository that is not under `src/`; following the spec (section 6) it is
modelled as a read-only list of line strings with a line count, line text
reads, first/last-line predicates and a first-non-whitespace offset.
Definitions modelling that adapter carry a `Modelled from the spec:` note.
-/

namespace Vim

/-- The two values of the source enum `PositionOptions`. -/
inductive PositionOptions where
  | characterWiseInclusive
  | characterWiseExclusive
deriving DecidableEq

/-- A cursor position: `line`, `character` and the caret mode.  The source
field `positionOptions` is typed `PositionOptions` but initialised to
`null`; positions flowing through the motion algorithms always carry one of
the two enum values, so the field is total here, and the `null` case is
treated by the `Option PositionOptions` layer (`getLineLengthE`,
`isValidE`) used for the error-behaviour claims. -/
structure Position where
  line : Nat
  character : Nat
  positionOptions : PositionOptions
deriving DecidableEq

/-- Modelled from the spec: the buffer adapter's `lineCount()`
(`TextEditor.getLineCount`). -/
def getLineCount (b : List String) : Nat := b.length

/-- Modelled from the spec: the adapter's `lineText(line)`
(`TextEditor.readLineAt` / `TextEditor.getLineAt(pos).text`).  Reading an
out-of-range line "fails/undefined" per the spec and is the caller's
responsibility; this total model returns `""` there, and every theorem
about in-range behaviour carries an explicit range hypothesis. -/
def lineTextAt (b : List String) (line : Nat) : String := (b[line]?).getD ""

/-- Modelled from the spec: `lineText(line)` as a fallible read, failing
for an out-of-range line.  Used by the error-behaviour layer. -/
def readLineAtE (b : List String) (line : Nat) : Except String String :=
  match b[line]? with
  | some s => Except.ok s
  | none => Except.error "readLineAt: line out of range"

/-- Modelled from the spec: the adapter's first-line predicate
(`TextEditor.isFirstLine`). -/
def isFirstLine (p : Position) : Bool := p.line == 0

/-- Modelled from the spec: the adapter's last-line predicate
(`TextEditor.isLastLine`). -/
def isLastLine (b : List String) (p : Position) : Bool :=
  p.line == getLineCount b - 1

/-- Whitespace in the sense of the JavaScript regex class used by
`makeWordRegex` and `firstNonWhitespaceCharacterIndex` (ASCII part of
JavaScript whitespace; the buffer lines contain no line breaks). -/
def isWhitespaceChar (c : Char) : Bool :=
  c == ' ' || c == '\t' || c == '\n' || c == '\r' || c == '\x0b' || c == '\x0c'

/-- The adapter's `firstNonWhitespaceCharacterIndex` and the source's
`getFirstNonBlankCharAtLine` (length of the leading-whitespace run matched
by the regex of leading whitespace). -/
def firstNonBlankIndex (s : String) : Nat :=
  (s.data.takeWhile isWhitespaceChar).length

/-- `Position.getLineLength` for a set caret mode: the `switch` over
`PositionOptions` in the source, with `len > 0 ? len - 1 : len` for the
exclusive mode and `len` for the inclusive mode. -/
def getLineLength (b : List String) (line : Nat) (options : PositionOptions) : Nat :=
  match options with
  | PositionOptions.characterWiseExclusive =>
      if (lineTextAt b line).length > 0 then (lineTextAt b line).length - 1
      else (lineTextAt b line).length
  | PositionOptions.characterWiseInclusive => (lineTextAt b line).length

/-- `Position.getLineLength` with the source's error behaviour made
explicit: a `null` (`none`) mode falls to the `default` switch case and
throws `Unhandled PositionOptions`, and for a recognised mode the line is
read fallibly (`readLineAtE`). -/
def getLineLengthE (b : List String) (line : Nat) (options : Option PositionOptions) :
    Except String Nat :=
  match options with
  | some PositionOptions.characterWiseExclusive =>
      Except.map (fun s : String => if s.length > 0 then s.length - 1 else s.length)
        (readLineAtE b line)
  | some PositionOptions.characterWiseInclusive =>
      Except.map String.length (readLineAtE b line)
  | none => Except.error "Unhandled PositionOptions"

/-- `Position.isValid` over a possibly-`null` caret mode, mirroring the
source order of checks: the line check first, then the call to
`getLineLength` (which throws on a `null` mode before the source's own
`null` check below it can run), then the character check, then the
(dead for `null`) options check. -/
def isValidE (b : List String) (line character : Nat) (options : Option PositionOptions) :
    Except String Bool :=
  if line > getLineCount b then Except.ok false
  else
    match getLineLengthE b line options with
    | Except.error e => Except.error e
    | Except.ok charCount =>
        if character > charCount then Except.ok false
        else if options.isNone then Except.ok false
        else Except.ok true

/-- `Position.isLineBeginning`. -/
def isLineBeginning (p : Position) : Bool := p.character == 0

/-- `Position.isLineEnd`. -/
def isLineEnd (b : List String) (p : Position) : Bool :=
  p.character == getLineLength b p.line p.positionOptions

/-- `Position.getLineBegin`. -/
def getLineBegin (p : Position) : Position := ⟨p.line, 0, p.positionOptions⟩

/-- `Position.getLineEnd`. -/
def getLineEnd (b : List String) (p : Position) : Position :=
  ⟨p.line, getLineLength b p.line p.positionOptions, p.positionOptions⟩

/-- `Position.getDocumentBegin`. -/
def getDocumentBegin (options : PositionOptions) : Position := ⟨0, 0, options⟩

/-- `Position.getDocumentEnd`: line `lineCount - 1` when the buffer is
non-empty, else `0`, at that line's length. -/
def getDocumentEnd (b : List String) (options : PositionOptions) : Position :=
  ⟨if getLineCount b > 0 then getLineCount b - 1 else 0,
   getLineLength b (if getLineCount b > 0 then getLineCount b - 1 else 0) options,
   options⟩

/-- `Position.getLeft`. -/
def getLeft (p : Position) : Position :=
  if ¬ isLineBeginning p then ⟨p.line, p.character - 1, p.positionOptions⟩ else p

/-- `Position.getRight`. -/
def getRight (b : List String) (p : Position) : Position :=
  if ¬ isLineEnd b p then ⟨p.line, p.character + 1, p.positionOptions⟩ else p

/-- `Position.getDown`. -/
def getDown (b : List String) (p : Position) (desiredColumn : Nat) : Position :=
  if (getDocumentEnd b p.positionOptions).line ≠ p.line then
    ⟨p.line + 1, min (getLineLength b (p.line + 1) p.positionOptions) desiredColumn,
     p.positionOptions⟩
  else p

/-- `Position.getUp`. -/
def getUp (b : List String) (p : Position) (desiredColumn : Nat) : Position :=
  if (getDocumentBegin p.positionOptions).line ≠ p.line then
    ⟨p.line - 1, min (getLineLength b (p.line - 1) p.positionOptions) desiredColumn,
     p.positionOptions⟩
  else p

/-- Classification of one character by the compiled word regex: whitespace,
a character of the configured punctuation set `P` (third regex alternative
`[P]+`), or a word character (second alternative, `[^\s P]+`). -/
inductive CharClass where
  | ws
  | wordChar
  | punct
deriving DecidableEq

/-- The character set `Position.NonWordCharacters` of the source
(punctuation characters; quote, apostrophe, braces and backtick written via
`Char.ofNat` 34, 39, 123, 125, 96). -/
def nonWordCharacters : List Char :=
  ['/', '\\', '(', ')', Char.ofNat 34, Char.ofNat 39, ':', ',', '.', ';', '<', '>',
   '~', '!', '@', '#', '$', '%', '^', '&', '*', '|', '+', '=', '[', ']',
   Char.ofNat 123, Char.ofNat 125, Char.ofNat 96, '?', '-']

/-- The character set `Position.NonBigWordCharacters` (empty, so the third
regex alternative `[]+` never matches and every maximal non-whitespace run
is one unit). -/
def nonBigWordCharacters : List Char := []

/-- Character classification for punctuation set `P`. -/
def charClass (P : List Char) (c : Char) : CharClass :=
  if isWhitespaceChar c then CharClass.ws
  else if P.contains c then CharClass.punct
  else CharClass.wordChar

/-- Start offsets of the maximal word/punctuation runs of a line, scanning
left to right: offset `i` starts a run when the character there is not
whitespace and the previous character (class carried in the accumulator)
has a different class.  These are exactly the `result.index` values the
source's `exec` loop pushes for the second and third regex alternatives. -/
def runStartsGo (P : List Char) : List Char → Nat → Option CharClass → List Nat
  | [], _, _ => []
  | c :: rest, i, prev =>
      if charClass P c ≠ CharClass.ws ∧ prev ≠ some (charClass P c) then
        i :: runStartsGo P rest (i + 1) (some (charClass P c))
      else runStartsGo P rest (i + 1) (some (charClass P c))

/-- End offsets of the maximal word/punctuation runs of a line: offset `i`
ends a run when the character there is not whitespace and is the last
character or the next character has a different class.  For each match of
the `exec` loop this is `result.index + result[0].length - 1`, the value
pushed by the current-word-end query. -/
def runEndsGo (P : List Char) : List Char → Nat → List Nat
  | [], _ => []
  | [c], i => if charClass P c ≠ CharClass.ws then [i] else []
  | c :: d :: rest, i =>
      if charClass P c ≠ CharClass.ws ∧ charClass P d ≠ charClass P c then
        i :: runEndsGo P (d :: rest) (i + 1)
      else runEndsGo P (d :: rest) (i + 1)

/-- Whether the first regex alternative `(^[\t ]*$)` matches the line:
every character is a tab or a space (including the empty line). -/
def isAllTabSpace (s : String) : Bool := s.data.all (fun c => c == ' ' || c == '\t')

/-- The `result.index` values produced by the source's `exec` loop over the
compiled regex, in match order.  A blank (all tab/space) line is one match
of the first alternative at offset `0`; otherwise the matches are the
maximal word and punctuation runs.  Caveat kept out of the model: on the
empty line `""` the first alternative matches with zero length, so the
source's `exec` loop never terminates; every theorem whose input would scan
a line carries a hypothesis that the scanned line is non-empty. -/
def matchStarts (P : List Char) (s : String) : List Nat :=
  if isAllTabSpace s then [0] else runStartsGo P s.data 0 none

/-- The `result.index + result[0].length - 1` values produced by the
source's `exec` loop, in match order (run-end offsets).  Same blank-line
and empty-line caveats as `matchStarts`; for a blank line the single value
is `length - 1` (truncated at zero where the source would compute `-1`,
reachable only through the non-terminating empty-line scan). -/
def matchEnds (P : List Char) (s : String) : List Nat :=
  if isAllTabSpace s then [s.length - 1] else runEndsGo P s.data 0

/-- `Position.getWordLeftWithRegex`.  The backward for-loop over
`positions[positions.length - 1 - index]` returning the first offset with
`currentCharacter > position` is embedded as `reverse.find?`. -/
def getWordLeftWithRegex (P : List Char) (b : List String) (p : Position) : Position :=
  let searchPrev := ¬ isFirstLine p ∧ p.character ≤ firstNonBlankIndex (lineTextAt b p.line)
  let wLine := if searchPrev then p.line - 1 else p.line
  let currentCharacter :=
    if searchPrev then getLineLength b wLine p.positionOptions + 1 else p.character
  match (matchStarts P (lineTextAt b wLine)).reverse.find?
      (fun pos => decide (pos < currentCharacter)) with
  | some pos => ⟨wLine, pos, p.positionOptions⟩
  | none =>
      if p.line = 0 then ⟨p.line, 0, p.positionOptions⟩
      else ⟨p.line - 1, getLineLength b (p.line - 1) p.positionOptions, p.positionOptions⟩

/-- `Position.getWordRightWithRegex`. -/
def getWordRightWithRegex (P : List Char) (b : List String) (p : Position) : Position :=
  if ¬ isLastLine b p ∧ p.character ≥ (getLineEnd b p).character then
    ⟨p.line + 1, firstNonBlankIndex (lineTextAt b (p.line + 1)), p.positionOptions⟩
  else
    match (matchStarts P (lineTextAt b p.line)).find?
        (fun pos => decide (p.character < pos)) with
    | some pos => ⟨p.line, pos, p.positionOptions⟩
    | none =>
        if p.line = (getDocumentEnd b p.positionOptions).line then getLineEnd b p
        else ⟨p.line + 1, firstNonBlankIndex (lineTextAt b (p.line + 1)), p.positionOptions⟩

/-- `Position.getCurrentWordEndWithRegex`.  Note the fall-through returns
`this.getLineEnd()`: the line-end of the original position's line, even
when the search was performed over the next line. -/
def getCurrentWordEndWithRegex (P : List Char) (b : List String) (p : Position) : Position :=
  let advance := ¬ isLastLine b p ∧ p.character ≥ (getLineEnd b p).character
  let wLine := if advance then p.line + 1 else p.line
  let currentCharacter := if advance then 0 else p.character
  match (matchEnds P (lineTextAt b wLine)).find?
      (fun pos => decide (currentCharacter < pos)) with
  | some pos => ⟨wLine, pos, p.positionOptions⟩
  | none => getLineEnd b p

/-- `Position.getWordLeft`. -/
def getWordLeft (b : List String) (p : Position) : Position :=
  getWordLeftWithRegex nonWordCharacters b p

/-- `Position.getBigWordLeft`. -/
def getBigWordLeft (b : List String) (p : Position) : Position :=
  getWordLeftWithRegex nonBigWordCharacters b p

/-- `Position.getWordRight`. -/
def getWordRight (b : List String) (p : Position) : Position :=
  getWordRightWithRegex nonWordCharacters b p

/-- `Position.getBigWordRight`. -/
def getBigWordRight (b : List String) (p : Position) : Position :=
  getWordRightWithRegex nonBigWordCharacters b p

/-- `Position.getCurrentWordEnd`. -/
def getCurrentWordEnd (b : List String) (p : Position) : Position :=
  getCurrentWordEndWithRegex nonWordCharacters b p

/-- `Position.getCurrentBigWordEnd`. -/
def getCurrentBigWordEnd (b : List String) (p : Position) : Position :=
  getCurrentWordEndWithRegex nonBigWordCharacters b p

/-- Phase 1 of `getCurrentParagraphEnd`: descend while the current line's
text is `""` and the line is not the last line.  The source loop terminates
for any in-range start because the line strictly increases towards the last
line, so fuel `getLineCount b` (one more step than any in-range descent can
take) is never exhausted there; out-of-range starts, on which the source
loop would read out-of-range lines, are excluded by hypothesis in every
theorem. -/
def paragraphEndPhase1 (b : List String) : Nat → Position → Position
  | 0, pos => pos
  | fuel + 1, pos =>
      if lineTextAt b pos.line = "" ∧ ¬ isLastLine b pos then
        paragraphEndPhase1 b fuel (getDown b pos 0)
      else pos

/-- Phase 2 of `getCurrentParagraphEnd`: descend while the current line's
text is not `""` and `line < lineCount - 1`.  Same fuel discipline as
`paragraphEndPhase1`. -/
def paragraphEndPhase2 (b : List String) : Nat → Position → Position
  | 0, pos => pos
  | fuel + 1, pos =>
      if lineTextAt b pos.line ≠ "" ∧ pos.line < getLineCount b - 1 then
        paragraphEndPhase2 b fuel (getDown b pos 0)
      else pos

/-- `Position.getCurrentParagraphEnd`: phase 1, then phase 2, then the
line-end of the stopping position. -/
def getCurrentParagraphEnd (b : List String) (p : Position) : Position :=
  getLineEnd b (paragraphEndPhase2 b (getLineCount b)
    (paragraphEndPhase1 b (getLineCount b) p))

/-- Phase 1 of `getCurrentParagraphBeginning`: ascend while the current
line's text is `""` and the line is not the first line. -/
def paragraphBeginPhase1 (b : List String) : Nat → Position → Position
  | 0, pos => pos
  | fuel + 1, pos =>
      if lineTextAt b pos.line = "" ∧ ¬ isFirstLine pos then
        paragraphBeginPhase1 b fuel (getUp b pos 0)
      else pos

/-- Phase 2 of `getCurrentParagraphBeginning`: ascend while `line > 0` and
the current line's text is not `""`. -/
def paragraphBeginPhase2 (b : List String) : Nat → Position → Position
  | 0, pos => pos
  | fuel + 1, pos =>
      if pos.line > 0 ∧ lineTextAt b pos.line ≠ "" then
        paragraphBeginPhase2 b fuel (getUp b pos 0)
      else pos

/-- `Position.getCurrentParagraphBeginning`: phase 1, then phase 2, then
the line-begin of the stopping position. -/
def getCurrentParagraphBeginning (b : List String) (p : Position) : Position :=
  getLineBegin (paragraphBeginPhase2 b (getLineCount b)
    (paragraphBeginPhase1 b (getLineCount b) p))

/-- Follows the spec's words for `wordLeft(classifier)` (claim C2): search
the scanned line's boundary-start offsets from the rightmost backward for
the first offset strictly less than the current character, i.e. the
rightmost qualifying offset (`filter` then `getLast?`); when the cursor is
at or before the line's first-non-blank character and the line is not the
first line, the search is performed over the previous line as if the cursor
were one past that line's end; with no qualifying offset, line-begin on the
first line and the end of the previous line otherwise. -/
def wordLeftSpec (P : List Char) (b : List String) (p : Position) : Position :=
  let searchPrev := ¬ isFirstLine p ∧ p.character ≤ firstNonBlankIndex (lineTextAt b p.line)
  let wLine := if searchPrev then p.line - 1 else p.line
  let currentCharacter :=
    if searchPrev then getLineLength b wLine p.positionOptions + 1 else p.character
  match ((matchStarts P (lineTextAt b wLine)).filter
      (fun pos => decide (pos < currentCharacter))).getLast? with
  | some pos => ⟨wLine, pos, p.positionOptions⟩
  | none =>
      if p.line = 0 then ⟨p.line, 0, p.positionOptions⟩
      else ⟨p.line - 1, getLineLength b (p.line - 1) p.positionOptions, p.positionOptions⟩

/-- Follows the spec's words for `wordRight(classifier)` (claim C3): at or
past line-end and not on the last line, jump to the next line's
first-non-blank offset; otherwise the leftmost boundary-start offset
strictly greater than the current character (`filter` then `head?`); with
none, line-end on the last line, else the next line's first-non-blank
offset. -/
def wordRightSpec (P : List Char) (b : List String) (p : Position) : Position :=
  if ¬ isLastLine b p ∧ p.character ≥ (getLineEnd b p).character then
    ⟨p.line + 1, firstNonBlankIndex (lineTextAt b (p.line + 1)), p.positionOptions⟩
  else
    match ((matchStarts P (lineTextAt b p.line)).filter
        (fun pos => decide (p.character < pos))).head? with
    | some pos => ⟨p.line, pos, p.positionOptions⟩
    | none =>
        if isLastLine b p then getLineEnd b p
        else ⟨p.line + 1, firstNonBlankIndex (lineTextAt b (p.line + 1)), p.positionOptions⟩

/-- Follows the spec's words for `currentWordEnd(classifier)` (claim C4):
at or past line-end and not on the last line, advance the search to the
next line with the baseline character reset to `0`; then the leftmost
boundary-end offset strictly greater than the baseline (`filter` then
`head?`), falling back to line-end (of the original position's line, the
source's `this.getLineEnd()`) when none exists. -/
def currentWordEndSpec (P : List Char) (b : List String) (p : Position) : Position :=
  let advance := ¬ isLastLine b p ∧ p.character ≥ (getLineEnd b p).character
  let wLine := if advance then p.line + 1 else p.line
  let currentCharacter := if advance then 0 else p.character
  match ((matchEnds P (lineTextAt b wLine)).filter
      (fun pos => decide (currentCharacter < pos))).head? with
  | some pos => ⟨wLine, pos, p.positionOptions⟩
  | none => getLineEnd b p

/-! Helper lemmas. -/

/-- A left-to-right `find?` returns the head of the filtered list. -/
theorem find?_eq_head?_filter {α : Type} (q : α → Bool) (l : List α) :
    l.find? q = (l.filter q).head? := by
  induction l with
  | nil => rfl
  | cons a l ih =>
      cases hqa : q a with
      | true =>
          rw [List.find?_cons_of_pos _ hqa, List.filter_cons_of_pos hqa, List.head?_cons]
      | false =>
          rw [List.find?_cons_of_neg _ (by simp [hqa]), List.filter_cons_of_neg (by simp [hqa]),
            ih]

/-- A right-to-left `find?` (the source's backward for-loop) returns the
last element of the filtered list. -/
theorem reverseFind?_eq_getLast?_filter {α : Type} (q : α → Bool) (l : List α) :
    l.reverse.find? q = (l.filter q).getLast? := by
  rw [find?_eq_head?_filter, List.filter_reverse, List.head?_reverse]

/-- Phase 1 of `getCurrentParagraphEnd` stops immediately when its loop
guard fails. -/
theorem paragraphEndPhase1_stop (b : List String) (fuel : Nat) (q : Position)
    (h : ¬ (lineTextAt b q.line = "" ∧ ¬ isLastLine b q)) :
    paragraphEndPhase1 b fuel q = q := by
  cases fuel with
  | zero => rfl
  | succ n => simp only [paragraphEndPhase1]; rw [if_neg h]

/-- Phase 2 of `getCurrentParagraphEnd` stops immediately when its loop
guard fails. -/
theorem paragraphEndPhase2_stop (b : List String) (fuel : Nat) (q : Position)
    (h : ¬ (lineTextAt b q.line ≠ "" ∧ q.line < getLineCount b - 1)) :
    paragraphEndPhase2 b fuel q = q := by
  cases fuel with
  | zero => rfl
  | succ n => simp only [paragraphEndPhase2]; rw [if_neg h]

/-- Phase 1 of `getCurrentParagraphBeginning` stops immediately when its
loop guard fails. -/
theorem paragraphBeginPhase1_stop (b : List String) (fuel : Nat) (q : Position)
    (h : ¬ (lineTextAt b q.line = "" ∧ ¬ isFirstLine q)) :
    paragraphBeginPhase1 b fuel q = q := by
  cases fuel with
  | zero => rfl
  | succ n => simp only [paragraphBeginPhase1]; rw [if_neg h]

/-- Phase 2 of `getCurrentParagraphBeginning` stops immediately when its
loop guard fails. -/
theorem paragraphBeginPhase2_stop (b : List String) (fuel : Nat) (q : Position)
    (h : ¬ (q.line > 0 ∧ lineTextAt b q.line ≠ "")) :
    paragraphBeginPhase2 b fuel q = q := by
  cases fuel with
  | zero => rfl
  | succ n => simp only [paragraphBeginPhase2]; rw [if_neg h]

/-- A position both phases of `getCurrentParagraphEnd` leave in place and
whose `getLineEnd` is itself is a fixed point of the motion. -/
theorem getCurrentParagraphEnd_fix (b : List String) (q : Position)
    (hq1 : paragraphEndPhase1 b (getLineCount b) q = q)
    (hq2 : paragraphEndPhase2 b (getLineCount b) q = q)
    (hq3 : getLineEnd b q = q) :
    getCurrentParagraphEnd b q = q := by
  unfold getCurrentParagraphEnd; rw [hq1, hq2, hq3]

/-- A position both phases of `getCurrentParagraphBeginning` leave in place
and whose `getLineBegin` is itself is a fixed point of the motion. -/
theorem getCurrentParagraphBeginning_fix (b : List String) (q : Position)
    (hq1 : paragraphBeginPhase1 b (getLineCount b) q = q)
    (hq2 : paragraphBeginPhase2 b (getLineCount b) q = q)
    (hq3 : getLineBegin q = q) :
    getCurrentParagraphBeginning b q = q := by
  unfold getCurrentParagraphBeginning; rw [hq1, hq2, hq3]

/-! Claim theorems. -/

/-- C1 (counterexample): in Exclusive mode on `["foo", "", "bar"]` with the
cursor at `(0,0)`, `getCurrentParagraphEnd` does not return `(0, 3)`. -/
theorem paragraphEnd_scenarioB_counterexample :
    getCurrentParagraphEnd ["foo", "", "bar"] ⟨0, 0, PositionOptions.characterWiseExclusive⟩ ≠
      ⟨0, 3, PositionOptions.characterWiseExclusive⟩ := by decide

/-- C1 (amended): in Exclusive mode on `["foo", "", "bar"]` with the cursor
at `(0,0)`, `getCurrentParagraphEnd` returns `(1, 0)`: phase 2 descends
from line 0 into the blank line 1 and stops there, and the result is the
line-end of line 1, whose exclusive length is 0. -/
theorem paragraphEnd_scenarioB_amended :
    getCurrentParagraphEnd ["foo", "", "bar"] ⟨0, 0, PositionOptions.characterWiseExclusive⟩ =
      ⟨1, 0, PositionOptions.characterWiseExclusive⟩ := by decide

/-- C5 (counterexample): on the Exclusive buffer `["ab"]` (line length 1),
the position `(0,1)` is not at line-beginning yet `right().left()` moves it
to `(0,0)`, and the position `(0,0)` is not at line-end yet
`left().right()` moves it to `(0,1)`: both halves of the claim, with the
guards as stated, fail. -/
theorem left_right_swapped_counterexample :
    isLineBeginning (⟨0, 1, PositionOptions.characterWiseExclusive⟩ : Position) = false ∧
    getLeft (getRight ["ab"] ⟨0, 1, PositionOptions.characterWiseExclusive⟩) ≠
      (⟨0, 1, PositionOptions.characterWiseExclusive⟩ : Position) ∧
    isLineEnd ["ab"] ⟨0, 0, PositionOptions.characterWiseExclusive⟩ = false ∧
    getRight ["ab"] (getLeft ⟨0, 0, PositionOptions.characterWiseExclusive⟩) ≠
      (⟨0, 0, PositionOptions.characterWiseExclusive⟩ : Position) := by decide

/-- C5 (amended, guards swapped relative to the claim): `right().left()`
restores every position that is not at line-end per its mode, and
`left().right()` restores every position that is not at line-beginning and
whose character does not exceed the line length. -/
theorem left_right_inverse_amended (b : List String) (p : Position) :
    (¬ isLineEnd b p → getLeft (getRight b p) = p) ∧
    (¬ isLineBeginning p → p.character ≤ getLineLength b p.line p.positionOptions →
      getRight b (getLeft p) = p) := by
  obtain ⟨l, c, o⟩ := p
  constructor
  · intro h
    have h' : ¬ c = getLineLength b l o := by simpa [isLineEnd] using h
    simp [getRight, getLeft, isLineEnd, isLineBeginning, h']
  · intro h hle
    have h0 : ¬ c = 0 := by simpa [isLineBeginning] using h
    have hle' : c ≤ getLineLength b l o := hle
    have h1 : ¬ (c - 1 = getLineLength b l o) := by omega
    simp [getLeft, getRight, isLineBeginning, isLineEnd, h0, h1]
    omega

/-- C5 (witness): on the Exclusive buffer `["abc"]` the position `(0,1)` is
neither at line-beginning nor at line-end, and both compositions restore
it. -/
theorem left_right_inverse_amended_witness :
    getLeft (getRight ["abc"] ⟨0, 1, PositionOptions.characterWiseExclusive⟩) =
      (⟨0, 1, PositionOptions.characterWiseExclusive⟩ : Position) ∧
    getRight ["abc"] (getLeft ⟨0, 1, PositionOptions.characterWiseExclusive⟩) =
      (⟨0, 1, PositionOptions.characterWiseExclusive⟩ : Position) :=
  ⟨(left_right_inverse_amended ["abc"] ⟨0, 1, PositionOptions.characterWiseExclusive⟩).1
      (by decide),
   (left_right_inverse_amended ["abc"] ⟨0, 1, PositionOptions.characterWiseExclusive⟩).2
      (by decide) (by decide)⟩

/-- C7: for an in-range position, `getDown`/`getUp` move exactly one line
toward the adjacent line unless already on the last (resp. first) line, in
which case the position is returned unchanged; the resulting character is
`min(lineLength(targetLine, mode), desiredColumn)`; the resulting line
stays below the line count; and in Inclusive mode on `["abc", "def"]` with
the cursor at `(0, 3)`, `getDown 0` returns `(1, 0)`. -/
theorem vertical_motion_spec (b : List String) (p : Position) (d : Nat)
    (h : p.line < getLineCount b) :
    (p.line = getLineCount b - 1 → getDown b p d = p) ∧
    (p.line ≠ getLineCount b - 1 →
      getDown b p d =
        ⟨p.line + 1, min (getLineLength b (p.line + 1) p.positionOptions) d,
         p.positionOptions⟩) ∧
    (p.line = 0 → getUp b p d = p) ∧
    (p.line ≠ 0 →
      getUp b p d =
        ⟨p.line - 1, min (getLineLength b (p.line - 1) p.positionOptions) d,
         p.positionOptions⟩) ∧
    (getDown b p d).line < getLineCount b ∧
    (getUp b p d).line < getLineCount b ∧
    getDown ["abc", "def"] ⟨0, 3, PositionOptions.characterWiseInclusive⟩ 0 =
      ⟨1, 0, PositionOptions.characterWiseInclusive⟩ := by
  have hd : (getDocumentEnd b p.positionOptions).line = getLineCount b - 1 := by
    show (if getLineCount b > 0 then getLineCount b - 1 else 0) = getLineCount b - 1
    rw [if_pos (by omega)]
  have hb : (getDocumentBegin p.positionOptions).line = 0 := rfl
  refine ⟨?_, ?_, ?_, ?_, ?_, ?_, by decide⟩
  · intro he; unfold getDown; rw [if_neg (by rw [hd]; omega)]
  · intro hne; unfold getDown; rw [if_pos (by rw [hd]; omega)]
  · intro he; unfold getUp; rw [if_neg (by rw [hb]; omega)]
  · intro hne; unfold getUp; rw [if_pos (by rw [hb]; omega)]
  · unfold getDown
    by_cases hc : (getDocumentEnd b p.positionOptions).line ≠ p.line
    · rw [if_pos hc]; show p.line + 1 < getLineCount b; rw [hd] at hc; omega
    · rw [if_neg hc]; exact h
  · unfold getUp
    by_cases hc : (getDocumentBegin p.positionOptions).line ≠ p.line
    · rw [if_pos hc]; show p.line - 1 < getLineCount b; omega
    · rw [if_neg hc]; exact h

/-- C7 (witness): the theorem at the Inclusive buffer `["abc", "def"]` and
position `(0, 3)` with desired column `0`. -/
theorem vertical_motion_spec_witness :
    (0 = getLineCount ["abc", "def"] - 1 →
      getDown ["abc", "def"] ⟨0, 3, PositionOptions.characterWiseInclusive⟩ 0 =
        ⟨0, 3, PositionOptions.characterWiseInclusive⟩) ∧
    (0 ≠ getLineCount ["abc", "def"] - 1 →
      getDown ["abc", "def"] ⟨0, 3, PositionOptions.characterWiseInclusive⟩ 0 =
        ⟨0 + 1,
         min (getLineLength ["abc", "def"] (0 + 1) PositionOptions.characterWiseInclusive) 0,
         PositionOptions.characterWiseInclusive⟩) ∧
    (0 = 0 →
      getUp ["abc", "def"] ⟨0, 3, PositionOptions.characterWiseInclusive⟩ 0 =
        ⟨0, 3, PositionOptions.characterWiseInclusive⟩) ∧
    (0 ≠ 0 →
      getUp ["abc", "def"] ⟨0, 3, PositionOptions.characterWiseInclusive⟩ 0 =
        ⟨0 - 1,
         min (getLineLength ["abc", "def"] (0 - 1) PositionOptions.characterWiseInclusive) 0,
         PositionOptions.characterWiseInclusive⟩) ∧
    (getDown ["abc", "def"] ⟨0, 3, PositionOptions.characterWiseInclusive⟩ 0).line <
      getLineCount ["abc", "def"] ∧
    (getUp ["abc", "def"] ⟨0, 3, PositionOptions.characterWiseInclusive⟩ 0).line <
      getLineCount ["abc", "def"] ∧
    getDown ["abc", "def"] ⟨0, 3, PositionOptions.characterWiseInclusive⟩ 0 =
      ⟨1, 0, PositionOptions.characterWiseInclusive⟩ :=
  vertical_motion_spec ["abc", "def"] ⟨0, 3, PositionOptions.characterWiseInclusive⟩ 0
    (by decide)

/-- C8: evaluating the source's `isValid` on a position with an unset
(`null`) caret mode throws from `getLineLength` (the `default` switch case)
before the method's own `null` check — which would return `false` — can
run: the call errors instead of returning `false` as the spec states. -/
theorem isValid_unset_mode_raises :
    isValidE ["a"] 0 0 none = Except.error "Unhandled PositionOptions" := rfl

/-- C9: `getLineLength` with an unset caret mode raises immediately rather
than returning a default, and for the recognised modes on an in-range line
returns `len - 1` truncated at zero (i.e. `max(len − 1, 0)`) in Exclusive
mode and `len` in Inclusive mode. -/
theorem getLineLength_mode_spec (b : List String) (l : Nat) (h : l < getLineCount b) :
    getLineLengthE b l none = Except.error "Unhandled PositionOptions" ∧
    getLineLengthE b l (some PositionOptions.characterWiseExclusive) =
      Except.ok ((lineTextAt b l).length - 1) ∧
    getLineLengthE b l (some PositionOptions.characterWiseInclusive) =
      Except.ok (lineTextAt b l).length := by
  have hr : readLineAtE b l = Except.ok (lineTextAt b l) := by
    unfold readLineAtE lineTextAt
    rw [List.getElem?_eq_getElem h]
    rfl
  refine ⟨rfl, ?_, ?_⟩
  · unfold getLineLengthE
    rw [hr]
    have he : (if (lineTextAt b l).length > 0 then (lineTextAt b l).length - 1
        else (lineTextAt b l).length) = (lineTextAt b l).length - 1 := by split <;> omega
    simp [Except.map, he]
  · unfold getLineLengthE
    rw [hr]
    rfl

/-- C9 (witness): the theorem at the buffer `["ab"]` and line `0`. -/
theorem getLineLength_mode_spec_witness :
    getLineLengthE ["ab"] 0 none = Except.error "Unhandled PositionOptions" ∧
    getLineLengthE ["ab"] 0 (some PositionOptions.characterWiseExclusive) = Except.ok 1 ∧
    getLineLengthE ["ab"] 0 (some PositionOptions.characterWiseInclusive) = Except.ok 2 :=
  getLineLength_mode_spec ["ab"] 0 (by decide)

/-- C10: a non-empty line consisting solely of spaces and tabs is not
treated as blank by the paragraph motions: both phase-1 loops stop on it
immediately, and both phase-2 loops traverse through it (take a descent,
resp. ascent, step) when the line bound allows. -/
theorem paragraph_blank_only_empty (b : List String) (p : Position) (fuel : Nat)
    (_hS : isAllTabSpace (lineTextAt b p.line) = true)
    (hNE : lineTextAt b p.line ≠ "") :
    paragraphEndPhase1 b (fuel + 1) p = p ∧
    paragraphBeginPhase1 b (fuel + 1) p = p ∧
    (p.line < getLineCount b - 1 →
      paragraphEndPhase2 b (fuel + 1) p = paragraphEndPhase2 b fuel (getDown b p 0)) ∧
    (0 < p.line →
      paragraphBeginPhase2 b (fuel + 1) p = paragraphBeginPhase2 b fuel (getUp b p 0)) := by
  refine ⟨?_, ?_, ?_, ?_⟩
  · simp only [paragraphEndPhase1]; rw [if_neg (by rintro ⟨hx, -⟩; exact hNE hx)]
  · simp only [paragraphBeginPhase1]; rw [if_neg (by rintro ⟨hx, -⟩; exact hNE hx)]
  · intro hlt; simp only [paragraphEndPhase2]; rw [if_pos ⟨hNE, hlt⟩]
  · intro hpos; simp only [paragraphBeginPhase2]; rw [if_pos ⟨hpos, hNE⟩]

/-- C10 (witness): the theorem at the buffer `["a", " ", "b"]` (line 1 is a
single space), position `(1, 0)` in Exclusive mode, fuel `1`, with the two
side conditions discharged. -/
theorem paragraph_blank_only_empty_witness :
    paragraphEndPhase1 ["a", " ", "b"] 2 ⟨1, 0, PositionOptions.characterWiseExclusive⟩ =
      (⟨1, 0, PositionOptions.characterWiseExclusive⟩ : Position) ∧
    paragraphBeginPhase1 ["a", " ", "b"] 2 ⟨1, 0, PositionOptions.characterWiseExclusive⟩ =
      (⟨1, 0, PositionOptions.characterWiseExclusive⟩ : Position) ∧
    paragraphEndPhase2 ["a", " ", "b"] 2 ⟨1, 0, PositionOptions.characterWiseExclusive⟩ =
      paragraphEndPhase2 ["a", " ", "b"] 1
        (getDown ["a", " ", "b"] ⟨1, 0, PositionOptions.characterWiseExclusive⟩ 0) ∧
    paragraphBeginPhase2 ["a", " ", "b"] 2 ⟨1, 0, PositionOptions.characterWiseExclusive⟩ =
      paragraphBeginPhase2 ["a", " ", "b"] 1
        (getUp ["a", " ", "b"] ⟨1, 0, PositionOptions.characterWiseExclusive⟩ 0) := by
  have h := paragraph_blank_only_empty ["a", " ", "b"]
    ⟨1, 0, PositionOptions.characterWiseExclusive⟩ 1 (by decide) (by decide)
  exact ⟨h.1, h.2.1, h.2.2.1 (by decide), h.2.2.2 (by decide)⟩

/-- C2: `getWordLeftWithRegex` coincides, for any classifier and any
in-range position whose scanned line is non-empty (the source's `exec` loop
does not terminate on an empty scanned line), with the spec's description
`wordLeftSpec`: the rightmost boundary-start offset strictly less than the
current character over the scanned line — the previous line, with the
cursor taken one past its end, when the cursor is at or before the current
line's first-non-blank character and the line is not the first — with
line-begin (first line) or the previous line's end as fallback; and in
Exclusive mode on the single line `"foo bar"` with the cursor at character
4, `getWordLeft` returns `(0, 0)`. -/
theorem wordLeft_refines_spec (P : List Char) (b : List String) (p : Position)
    (_h1 : p.line < getLineCount b)
    (_h2 : lineTextAt b
        (if ¬ isFirstLine p ∧ p.character ≤ firstNonBlankIndex (lineTextAt b p.line)
         then p.line - 1 else p.line) ≠ "") :
    getWordLeftWithRegex P b p = wordLeftSpec P b p ∧
    getWordLeft ["foo bar"] ⟨0, 4, PositionOptions.characterWiseExclusive⟩ =
      ⟨0, 0, PositionOptions.characterWiseExclusive⟩ := by
  refine ⟨?_, by decide⟩
  unfold getWordLeftWithRegex wordLeftSpec
  simp only [reverseFind?_eq_getLast?_filter]

/-- C2 (witness): the theorem at the Exclusive buffer `["foo bar"]` and
position `(0, 4)` with the word classifier. -/
theorem wordLeft_refines_spec_witness :
    getWordLeftWithRegex nonWordCharacters ["foo bar"]
        ⟨0, 4, PositionOptions.characterWiseExclusive⟩ =
      wordLeftSpec nonWordCharacters ["foo bar"]
        ⟨0, 4, PositionOptions.characterWiseExclusive⟩ ∧
    getWordLeft ["foo bar"] ⟨0, 4, PositionOptions.characterWiseExclusive⟩ =
      ⟨0, 0, PositionOptions.characterWiseExclusive⟩ :=
  wordLeft_refines_spec nonWordCharacters ["foo bar"]
    ⟨0, 4, PositionOptions.characterWiseExclusive⟩ (by decide) (by decide)

/-- C3: `getWordRightWithRegex` coincides, for any classifier and any
in-range position such that the current line is empty only if it is not the
last line (the source's `exec` loop does not terminate on an empty scanned
line), with the spec's description `wordRightSpec`: at or past line-end and
not on the last line, jump to the next line's first-non-blank offset;
otherwise the leftmost boundary-start offset strictly greater than the
current character, with line-end (last line) or the next line's
first-non-blank offset as fallback; and in Exclusive mode on the last line
`"abc"` with the cursor at `(0, 2)` — line-end — `getWordRight` returns
`(0, 2)` unchanged. -/
theorem wordRight_refines_spec (P : List Char) (b : List String) (p : Position)
    (h1 : p.line < getLineCount b)
    (_h2 : lineTextAt b p.line = "" → ¬ isLastLine b p) :
    getWordRightWithRegex P b p = wordRightSpec P b p ∧
    getWordRight ["abc"] ⟨0, 2, PositionOptions.characterWiseExclusive⟩ =
      ⟨0, 2, PositionOptions.characterWiseExclusive⟩ := by
  refine ⟨?_, by decide⟩
  have hd : (getDocumentEnd b p.positionOptions).line = getLineCount b - 1 := by
    show (if getLineCount b > 0 then getLineCount b - 1 else 0) = getLineCount b - 1
    rw [if_pos (by omega)]
  have hiff : (p.line = (getDocumentEnd b p.positionOptions).line) ↔ (isLastLine b p = true) := by
    rw [hd]; unfold isLastLine; simp [getLineCount]
  unfold getWordRightWithRegex wordRightSpec
  rw [find?_eq_head?_filter]
  simp only [hiff]

/-- C3 (witness): the theorem at the Exclusive buffer `["abc"]` and
position `(0, 2)` with the word classifier. -/
theorem wordRight_refines_spec_witness :
    getWordRightWithRegex nonWordCharacters ["abc"]
        ⟨0, 2, PositionOptions.characterWiseExclusive⟩ =
      wordRightSpec nonWordCharacters ["abc"]
        ⟨0, 2, PositionOptions.characterWiseExclusive⟩ ∧
    getWordRight ["abc"] ⟨0, 2, PositionOptions.characterWiseExclusive⟩ =
      ⟨0, 2, PositionOptions.characterWiseExclusive⟩ :=
  wordRight_refines_spec nonWordCharacters ["abc"]
    ⟨0, 2, PositionOptions.characterWiseExclusive⟩ (by decide) (by decide)

/-- C4: `getCurrentWordEndWithRegex` coincides, for any classifier and any
in-range position whose scanned line is non-empty (the source's `exec` loop
does not terminate on an empty scanned line), with the spec's description
`currentWordEndSpec`: at or past line-end and not on the last line, the
search advances to the next line with baseline character 0; the result is
the leftmost boundary-end offset (run start + length − 1) strictly greater
than the baseline over the possibly advanced line, falling back to the
line-end of the original position's line. -/
theorem currentWordEnd_refines_spec (P : List Char) (b : List String) (p : Position)
    (_h1 : p.line < getLineCount b)
    (_h2 : lineTextAt b
        (if ¬ isLastLine b p ∧ p.character ≥ (getLineEnd b p).character
         then p.line + 1 else p.line) ≠ "") :
    getCurrentWordEndWithRegex P b p = currentWordEndSpec P b p := by
  unfold getCurrentWordEndWithRegex currentWordEndSpec
  simp only [find?_eq_head?_filter]

/-- C4 (witness): the theorem at the Exclusive buffer `["foo bar"]` and
position `(0, 1)` with the word classifier. -/
theorem currentWordEnd_refines_spec_witness :
    getCurrentWordEndWithRegex nonWordCharacters ["foo bar"]
        ⟨0, 1, PositionOptions.characterWiseExclusive⟩ =
      currentWordEndSpec nonWordCharacters ["foo bar"]
        ⟨0, 1, PositionOptions.characterWiseExclusive⟩ :=
  currentWordEnd_refines_spec nonWordCharacters ["foo bar"]
    ⟨0, 1, PositionOptions.characterWiseExclusive⟩ (by decide) (by decide)

/-- C6 (counterexample): on the Exclusive buffer `["a", "", "b"]`, applying
`getCurrentParagraphEnd` twice from `(0, 0)` does not equal applying it
once: the first application stops on the interior blank line 1 at `(1, 0)`
and the second advances to `(2, 0)`. -/
theorem paragraph_idempotent_counterexample :
    ¬ (getCurrentParagraphEnd ["a", "", "b"]
        (getCurrentParagraphEnd ["a", "", "b"] ⟨0, 0, PositionOptions.characterWiseExclusive⟩) =
       getCurrentParagraphEnd ["a", "", "b"] ⟨0, 0, PositionOptions.characterWiseExclusive⟩) := by
  decide

/-- C6 (amended): the paragraph motions are idempotent only conditionally:
a second `getCurrentParagraphEnd` returns the same position whenever the
first application's result lies on the last line, and a second
`getCurrentParagraphBeginning` returns the same position whenever the first
application's result lies on line 0; in general (first result on an
interior blank line) a second application moves further. -/
theorem paragraph_conditional_idempotent (b : List String) (p : Position) :
    ((getCurrentParagraphEnd b p).line = getLineCount b - 1 →
      getCurrentParagraphEnd b (getCurrentParagraphEnd b p) = getCurrentParagraphEnd b p) ∧
    ((getCurrentParagraphBeginning b p).line = 0 →
      getCurrentParagraphBeginning b (getCurrentParagraphBeginning b p) =
        getCurrentParagraphBeginning b p) := by
  constructor
  · intro hE
    refine getCurrentParagraphEnd_fix b _ ?_ ?_ rfl
    · refine paragraphEndPhase1_stop b _ _ ?_
      rintro ⟨-, hlast⟩
      exact hlast (by simp [isLastLine, hE])
    · refine paragraphEndPhase2_stop b _ _ ?_
      rintro ⟨-, hlt⟩
      omega
  · intro hB
    refine getCurrentParagraphBeginning_fix b _ ?_ ?_ rfl
    · refine paragraphBeginPhase1_stop b _ _ ?_
      rintro ⟨-, hfirst⟩
      exact hfirst (by simp [isFirstLine, hB])
    · refine paragraphBeginPhase2_stop b _ _ ?_
      rintro ⟨hpos, -⟩
      omega

/-- C6 (witness): on the Exclusive buffer `["a", "", "b"]`, the
`getCurrentParagraphEnd` clause at `(2, 0)` (first result `(2, 0)` lies on
the last line, while `getCurrentParagraphBeginning` from `(2, 0)` gives
`(1, 0)`, so the clauses apply independently) and the
`getCurrentParagraphBeginning` clause at `(0, 0)` (first result `(0, 0)`
lies on line 0). -/
theorem paragraph_conditional_idempotent_witness :
    getCurrentParagraphEnd ["a", "", "b"]
        (getCurrentParagraphEnd ["a", "", "b"] ⟨2, 0, PositionOptions.characterWiseExclusive⟩) =
      getCurrentParagraphEnd ["a", "", "b"] ⟨2, 0, PositionOptions.characterWiseExclusive⟩ ∧
    getCurrentParagraphBeginning ["a", "", "b"]
        (getCurrentParagraphBeginning ["a", "", "b"]
          ⟨0, 0, PositionOptions.characterWiseExclusive⟩) =
      getCurrentParagraphBeginning ["a", "", "b"]
        ⟨0, 0, PositionOptions.characterWiseExclusive⟩ :=
  ⟨(paragraph_conditional_idempotent ["a", "", "b"]
      ⟨2, 0, PositionOptions.characterWiseExclusive⟩).1 (by decide),
   (paragraph_conditional_idempotent ["a", "", "b"]
      ⟨0, 0, PositionOptions.characterWiseExclusive⟩).2 (by decide)⟩

end Vim
